import Mathlib

/-!
# Verification of the testflow front-end execution-state model

Shallow embedding of the archive execution model of the `testflow`
front-end: the HTTP transport interceptors (`src/unnamed/part_000`),
the archive API surface (`src/unnamed/part_001`), the archive detail
view (`ArchiveDetail.vue`: `openRunDrawer`, `stats`, `saveExecution`,
`handleExport`) and the archive creation dialog
(`ProjectArchives.vue`: `openCreateDialog`, `handleCreate`).

JavaScript strings are `String`, nullable fields are `Option`,
objects keyed by strings are association lists, and truthiness of a
string (`s || d`) is the explicit test `s = ""`.
-/

namespace Testflow

/-- JS `a || d` for an optional string `a`: `null`/`undefined` and the
empty string are falsy and yield the default `d`. -/
def jsOrS (a : Option String) (d : String) : String :=
  match a with
  | none => d
  | some s => if s = "" then d else s

/-- JS `String.prototype.startsWith` (embedding: list prefix on the
underlying character data). -/
def jsStartsWith (s p : String) : Bool :=
  p.data.isPrefixOf s.data

/-- JS `String.prototype.includes` (embedding: list infix on the
underlying character data). -/
def jsIncludes (s p : String) : Bool :=
  decide (p.data <:+: s.data)

/-! ## Injectivity of the decimal rendering of `Nat`

The views build tree-node keys and step-result keys via JS template
strings `` `case-${id}` `` and `String(idx + 1)`; both render a natural
number in decimal, which the embedding writes `toString n`
(i.e. `Nat.repr`). Uniqueness claims about those keys need that this
rendering is injective, which we prove from the core definition. -/

/-- Decimal digit characters of `n`, most significant first: the
fuel-free reading of core's `Nat.toDigits 10`. -/
def decDigits (n : Nat) : List Char :=
  if n < 10 then [Nat.digitChar n]
  else decDigits (n / 10) ++ [Nat.digitChar (n % 10)]
  decreasing_by exact Nat.div_lt_self (by omega) (by omega)

/-- Numeric value of a most-significant-first decimal digit string. -/
def decVal (l : List Char) : Nat :=
  l.foldl (fun a c => a * 10 + (c.toNat - 48)) 0

/-! ## Data model (`src/unnamed/part_001`, interface declarations)

`ArchivedTestCase` keeps exactly the fields the verified operations
read; `Record<string, …>` fields are association lists on string keys;
`step_execution_results` entries are `any`, so a saved step result
carries its two fields as plain strings, an absent field standing as
`""` (the code only ever reads them through the falsy-defaulting
`||`, under which an absent field and `""` behave identically). -/

/-- One element of `test_steps`: `{action, expected}`. -/
structure TestStep where
  action : String
  expected : String
  deriving Repr, DecidableEq

/-- A per-step execution result `{status, actual}`. -/
structure StepRes where
  status : String
  actual : String
  deriving Repr, DecidableEq

/-- The fields of `ArchivedTestCase` read by the archive detail view. -/
structure ArchivedTestCase where
  id : Nat
  test_steps : Option (List TestStep)
  execution_status : Option String
  execution_comment : Option String
  step_execution_results : Option (List (String × StepRes))
  deriving Repr, DecidableEq

/-- The reactive `currentExecution` object: overall status, comment and
the per-step result map being edited. -/
structure Draft where
  status : String
  comment : String
  step_results : List (String × StepRes)
  deriving Repr, DecidableEq

/-- The body of `archiveApi.updateExecution` (`ExecutionUpdateRequest`). -/
structure ExecutionUpdateRequest where
  status : String
  comment : String
  step_results : List (String × StepRes)
  deriving Repr, DecidableEq

/-! ## `openRunDrawer` (ArchiveDetail.vue lines 293–312) -/

/-- `row.step_execution_results?.[stepNum]`: optional-chained key lookup
in the saved step-result map. -/
def lookupSaved (m : Option (List (String × StepRes))) (k : String) : Option StepRes :=
  (m.getD []).lookup k

/-- Seeding of one draft entry:
`{status: saved?.status || 'skipped', actual: saved?.actual || ''}`. -/
def seedStep (saved : Option StepRes) : StepRes :=
  { status := jsOrS (saved.map (·.status)) "skipped"
  , actual := jsOrS (saved.map (·.actual)) "" }

/-- `openRunDrawer(row)`: builds the draft from the case's persisted
snapshot. The `if (row.test_steps)` null guard makes a `null` step list
seed no entries, exactly as iterating an empty array does. -/
def openRunDrawer (row : ArchivedTestCase) : Draft :=
  { status := jsOrS row.execution_status "skipped"
  , comment := jsOrS row.execution_comment ""
  , step_results :=
      match row.test_steps with
      | none => []
      | some steps =>
          (List.range steps.length).map fun idx =>
            let stepNum := toString (idx + 1)
            (stepNum, seedStep (lookupSaved row.step_execution_results stepNum)) }

/-! ## `stats` (ArchiveDetail.vue lines 261–272) -/

/-- The derived statistics record. -/
structure ArchiveStats where
  total : Nat
  passed : Nat
  failed : Nat
  blocked : Nat
  skipped : Nat
  passRate : String
  deriving Repr, DecidableEq

/-- Fuel-based floor of `log₂ n` (the fuel `n` suffices: the argument
halves at every step). Used to locate the binade of a positive
rational when rounding it to a double. -/
def natLog2A : Nat → Nat → Nat
  | 0, _ => 0
  | fuel + 1, n => if n ≥ 2 then natLog2A fuel (n / 2) + 1 else 0

/-- Floor of `log₂ n` for `n ≥ 1`. -/
def natLog2 (n : Nat) : Nat := natLog2A n n

/-- Round `num / den` (with `den > 0`) to the nearest integer, ties to
even — the IEEE-754 default rounding used for arithmetic results. -/
def roundHalfEven (num den : Nat) : Nat :=
  let q := num / den
  let r := num % den
  if 2 * r < den then q
  else if den < 2 * r then q + 1
  else if q % 2 = 0 then q else q + 1

/-- The IEEE-754 binary64 (JS number) value nearest to `p / q`
(`q > 0`), ties to even, returned as an exact fraction
numerator/denominator. The 53-bit significand is found in the binade
`2^L ≤ p/q < 2^(L+1)`; exponent-range clipping (subnormals, overflow)
is not modelled, which is faithful for every value arising here (pass
fractions lie between `1/total` and `100`). -/
def roundB64 (p q : Nat) : Nat × Nat :=
  if p = 0 then (0, 1)
  else if q ≤ p then
    let L := natLog2 (p / q)
    if 52 ≤ L then
      let s := L - 52
      (roundHalfEven p (q * 2 ^ s) * 2 ^ s, 1)
    else
      let s := 52 - L
      (roundHalfEven (p * 2 ^ s) q, 2 ^ s)
  else
    let k := natLog2 (q / p)
    let s := if q ≤ p * 2 ^ k then k else k + 1
    (roundHalfEven (p * 2 ^ (s + 52)) q, 2 ^ (s + 52))

/-- The JS division `passed / total` of two exact small integers: the
correctly rounded double of the exact quotient. -/
def jsDiv (a b : Nat) : Nat × Nat := roundB64 a b

/-- The JS multiplication `x * 100` of a double `x`: the correctly
rounded double of the exact product. -/
def jsMul100 (x : Nat × Nat) : Nat × Nat := roundB64 (x.1 * 100) x.2

/-- ECMA `Number.prototype.toFixed(1)` on the exact value `num / den`
(`den > 0`): the integer `n` with `n / 10` closest to the value, the
larger `n` on ties — `⌊10·x + 1/2⌋` for the nonnegative values arising
here — rendered `<int>.<digit>`. In the program its argument is a
double, an exact dyadic rational. -/
def toFixed1 (num den : Nat) : String :=
  let n := (num * 20 + den) / (2 * den)
  toString (n / 10) ++ "." ++ toString (n % 10)

/-- The `stats` computed property: bucket counts by strict equality on
`execution_status`, and the guarded pass rate
`((passed / total) * 100).toFixed(1)` computed, as in JS, in binary64
double precision. -/
def stats (cases : List ArchivedTestCase) : ArchiveStats :=
  let total := cases.length
  let passed := (cases.filter (fun c => c.execution_status = some "passed")).length
  let failed := (cases.filter (fun c => c.execution_status = some "failed")).length
  let blocked := (cases.filter (fun c => c.execution_status = some "blocked")).length
  let skipped := (cases.filter (fun c => c.execution_status = some "skipped")).length
  { total := total, passed := passed, failed := failed
  , blocked := blocked, skipped := skipped
  , passRate :=
      if total > 0 then
        toFixed1 (jsMul100 (jsDiv passed total)).1 (jsMul100 (jsDiv passed total)).2
      else "0.0" }

/-! ## `saveExecution` (ArchiveDetail.vue lines 314–337) -/

/-- The payload `saveExecution` sends: the three fields of
`currentExecution`, verbatim. -/
def commit (d : Draft) : ExecutionUpdateRequest :=
  { status := d.status, comment := d.comment, step_results := d.step_results }

/-- A server reply that echoes the committed payload unchanged: the
case record with its execution fields replaced by exactly what was
sent. -/
def echoServer (c : ArchivedTestCase) (req : ExecutionUpdateRequest) : ArchivedTestCase :=
  { c with
    execution_status := some req.status
  , execution_comment := some req.comment
  , step_execution_results := some req.step_results }

/-- The list update inside `saveExecution`:
`findIndex(c => c.id === updated.id)`, then in-place replacement when
found. -/
def applyServerResult (cases : List ArchivedTestCase) (updated : ArchivedTestCase) :
    List ArchivedTestCase :=
  match cases.findIdx? (fun c => c.id == updated.id) with
  | some idx => cases.set idx updated
  | none => cases

/-! ## `handleExport` (ArchiveDetail.vue lines 341–362) -/

/-- `format === 'xmind' ? 'xmind' : (format === 'markdown' ? 'md' : 'csv')`. -/
def exportExt (format : String) : String :=
  if format = "xmind" then "xmind" else if format = "markdown" then "md" else "csv"

/-- The download filename `` `${archiveName.value}_导出.${ext}` ``. -/
def exportFilename (archiveName format : String) : String :=
  archiveName ++ "_导出." ++ exportExt format

/-! ## Archive creation (ProjectArchives.vue)

`openCreateDialog` (lines 150–181) builds a three-level checkbox tree
from the hierarchical module→case listing; `handleCreate`
(lines 183–216) validates the form and extracts the checked case ids. -/

/-- One test case of the hierarchical listing. -/
structure CaseInfo where
  id : Nat
  title : String
  deriving Repr, DecidableEq

/-- One module of the hierarchical listing; `test_cases` is nullable
(the code reads it through `|| []`). -/
structure ModuleInfo where
  id : Nat
  name : String
  test_cases : Option (List CaseInfo)
  deriving Repr, DecidableEq

/-- A leaf node of the built tree (`isLeaf: true`, carrying the case id). -/
structure CaseNode where
  key : String
  label : String
  id : Nat
  deriving Repr, DecidableEq

/-- A module node of the built tree. -/
structure ModuleNode where
  key : String
  label : String
  children : List CaseNode
  deriving Repr, DecidableEq

/-- The synthesized root "select all" node. -/
structure RootNode where
  key : String
  label : String
  children : List ModuleNode
  deriving Repr, DecidableEq

/-- `{key: `case-${tc.id}`, label: tc.title, id: tc.id, isLeaf: true}`. -/
def caseNode (tc : CaseInfo) : CaseNode :=
  { key := "case-" ++ toString tc.id, label := tc.title, id := tc.id }

/-- `{key: `module-${mod.id}`, label: mod.name, children: …}`. -/
def moduleNode (m : ModuleInfo) : ModuleNode :=
  { key := "module-" ++ toString m.id
  , label := m.name
  , children := (m.test_cases.getD []).map caseNode }

/-- The tree built by `openCreateDialog`: map modules, drop those with
no children, wrap in the single root node. -/
def buildTree (data : List ModuleInfo) : RootNode :=
  { key := "root-all"
  , label := "全部用例"
  , children := (data.map moduleNode).filter (fun n => n.children.length > 0) }

/-- A node as returned by `treeRef.getCheckedNodes(true, false)`:
its key, and its `id` field when the node data has one (`none` renders
JS `undefined` on non-case nodes). -/
structure CheckedNode where
  key : String
  id : Option Nat
  deriving Repr, DecidableEq

/-- Checked leaves below one module node of the built tree, for a user
check-set given by node keys: el-tree checks cascade downward, so a
leaf is checked exactly when it or one of its ancestors was checked. A
childless module node is itself a leaf. -/
def checkedModuleLeaves (rootKey : String) (checkedKeys : List String)
    (m : ModuleNode) : List CheckedNode :=
  if m.children.isEmpty then
    if rootKey ∈ checkedKeys ∨ m.key ∈ checkedKeys then [⟨m.key, none⟩] else []
  else
    m.children.filterMap fun c =>
      if rootKey ∈ checkedKeys ∨ m.key ∈ checkedKeys ∨ c.key ∈ checkedKeys then
        some ⟨c.key, some c.id⟩
      else none

/-- `getCheckedNodes(leafOnly := true, includeHalfChecked := false)` on
the built tree for a user check-set given by node keys: the leaf nodes
(nodes without children, at whatever level) that are checked themselves
or through a checked ancestor, in tree order. -/
def checkedLeafNodes (t : RootNode) (checkedKeys : List String) : List CheckedNode :=
  if t.children.isEmpty then
    if t.key ∈ checkedKeys then [⟨t.key, none⟩] else []
  else
    t.children.flatMap (checkedModuleLeaves t.key checkedKeys)

/-- The extraction inside `handleCreate`:
`checkedNodes.filter(node => node.key.startsWith('case-')).map(node => node.id)`.
(`getD 0` renders reading `id` off a node that lacks one; nodes built
by `caseNode` always carry their id.) -/
def extractCaseIds (checkedNodes : List CheckedNode) : List Nat :=
  (checkedNodes.filter (fun n => jsStartsWith n.key "case-")).map (fun n => n.id.getD 0)

/-- The observable outcome of `handleCreate`: a local rejection (no
request issued) or the create request with its payload. -/
inductive CreateOutcome where
  | rejectedEmptyName : CreateOutcome
  | rejectedEmptySelection : CreateOutcome
  | request (projectId : Nat) (name : String) (description : String)
      (test_case_ids : List Nat) : CreateOutcome
  deriving Repr, DecidableEq

/-- `handleCreate`: reject on falsy name, extract checked case ids,
reject on empty selection, otherwise issue the create request with the
form's name, description and the extracted ids. -/
def handleCreate (projectId : Nat) (name description : String)
    (checkedNodes : List CheckedNode) : CreateOutcome :=
  if name = "" then .rejectedEmptyName
  else
    let caseIds := extractCaseIds checkedNodes
    if caseIds.length = 0 then .rejectedEmptySelection
    else .request projectId name description caseIds

/-! ## Transport interceptors (`src/unnamed/part_000`) -/

/-- The two persisted tokens in `localStorage`. -/
structure TokenStorage where
  access_token : Option String
  refresh_token : Option String
  deriving Repr, DecidableEq

/-- The request interceptor's `Authorization` header: attached as
`Bearer <token>` exactly when `localStorage.getItem('access_token')`
is truthy. -/
def requestAuthHeader (storage : TokenStorage) : Option String :=
  match storage.access_token with
  | none => none
  | some t => if t = "" then none else some ("Bearer " ++ t)

/-- The error payload fields the response interceptor reads (the
string-typed shape; the 422 branch's array-of-`{msg}` shape only
affects the display message, not the storage or navigation effects). -/
structure HttpErrorData where
  detail : Option String
  message : Option String
  deriving Repr, DecidableEq

/-- What the response-error interceptor leaves behind: the token
storage, the forced navigation target if any, and `error.message`. -/
structure ErrorOutcome where
  storage : TokenStorage
  location : Option String
  errorMessage : String
  deriving Repr, DecidableEq

/-- The `error.response` branch of the response interceptor: the
status switch. Only the non-login 401 arm touches storage or forces a
navigation. -/
def respondWithError (storage : TokenStorage) (status : Nat) (url : Option String)
    (data : HttpErrorData) : ErrorOutcome :=
  let base := jsOrS data.detail (jsOrS data.message "")
  if status = 401 then
    if (match url with
        | some u => jsIncludes u "/auth/login"
        | none => false) then
      { storage := storage, location := none
      , errorMessage := if base = "" then "用户名或密码错误" else base }
    else
      { storage := ⟨none, none⟩, location := some "/login"
      , errorMessage := "登录已过期，请重新登录" }
  else if status = 403 then
    { storage := storage, location := none
    , errorMessage := if base = "" then "权限不足" else base }
  else if status = 404 then
    { storage := storage, location := none
    , errorMessage := if base = "" then "请求的资源不存在" else base }
  else if status = 422 then
    { storage := storage, location := none
    , errorMessage := if base = "" then "参数错误" else base }
  else if status = 500 then
    { storage := storage, location := none
    , errorMessage := if base = "" then "服务器内部错误" else base }
  else
    { storage := storage, location := none
    , errorMessage := if base = "" then "请求失败 (" ++ toString status ++ ")" else base }

/-! ## Draft mutation (the drawer's `v-model` bindings,
ArchiveDetail.vue lines 120–190) -/

/-- Assignment `currentExecution.step_results[stepNum].status = status`
(the per-step radio group). -/
def setStepStatus (d : Draft) (stepNum status : String) : Draft :=
  { d with step_results :=
      d.step_results.map fun p =>
        if p.1 = stepNum then (p.1, { p.2 with status := status }) else p }

/-- Assignment `currentExecution.step_results[stepNum].actual = actual`
(the per-step textarea). -/
def setStepActual (d : Draft) (stepNum actual : String) : Draft :=
  { d with step_results :=
      d.step_results.map fun p =>
        if p.1 = stepNum then (p.1, { p.2 with actual := actual }) else p }

/-- Assignment `currentExecution.status = status` (the overall radio group). -/
def setOverallStatus (d : Draft) (status : String) : Draft :=
  { d with status := status }

/-- Assignment `currentExecution.comment = comment` (the overall textarea). -/
def setOverallComment (d : Draft) (comment : String) : Draft :=
  { d with comment := comment }

/-! ## Helper lemmas -/

theorem toDigitsCore_eq_decDigits :
    ∀ (fuel n : Nat) (ds : List Char), n < fuel →
      Nat.toDigitsCore 10 fuel n ds = decDigits n ++ ds := by
  intro fuel
  induction fuel with
  | zero => intro n ds h; omega
  | succ f ih =>
    intro n ds h
    rw [Nat.toDigitsCore]
    by_cases h10 : n / 10 = 0
    · have hn : n < 10 := by omega
      rw [if_pos h10]
      conv_rhs => rw [decDigits]
      rw [if_pos hn, Nat.mod_eq_of_lt hn]
      simp
    · have hn : ¬ n < 10 := by omega
      rw [if_neg h10]
      have hlt : n / 10 < f := by omega
      rw [ih (n / 10) _ hlt]
      conv_rhs => rw [decDigits]
      rw [if_neg hn]
      simp

theorem digitChar_toNat_sub (d : Nat) (h : d < 10) :
    (Nat.digitChar d).toNat - 48 = d := by
  interval_cases d <;> decide

theorem decVal_append (l : List Char) (c : Char) :
    decVal (l ++ [c]) = decVal l * 10 + (c.toNat - 48) := by
  simp [decVal, List.foldl_append]

theorem decVal_decDigits (n : Nat) : decVal (decDigits n) = n := by
  induction n using decDigits.induct with
  | case1 n h =>
    rw [decDigits, if_pos h]
    simp [decVal, digitChar_toNat_sub n h]
  | case2 n h ih =>
    rw [decDigits, if_neg h]
    rw [decVal_append, ih, digitChar_toNat_sub (n % 10) (Nat.mod_lt n (by omega))]
    omega

theorem decDigits_injective : Function.Injective decDigits := by
  intro a b h
  have := decVal_decDigits a
  rw [h, decVal_decDigits] at this
  omega

theorem natToString_injective : Function.Injective (toString : Nat → String) := by
  intro a b h
  apply decDigits_injective
  have ha : (toString a : String) = ⟨decDigits a⟩ := by
    show Nat.repr a = _
    rw [Nat.repr, Nat.toDigits,
      toDigitsCore_eq_decDigits (a + 1) a [] (Nat.lt_succ_self a)]
    simp [List.asString]
  have hb : (toString b : String) = ⟨decDigits b⟩ := by
    show Nat.repr b = _
    rw [Nat.repr, Nat.toDigits,
      toDigitsCore_eq_decDigits (b + 1) b [] (Nat.lt_succ_self b)]
    simp [List.asString]
  rw [ha, hb] at h
  exact String.ext_iff.mp h

theorem mem_of_lookup_eq_some {α β : Type} [BEq α] [LawfulBEq α]
    {l : List (α × β)} {k : α} {b : β} (h : l.lookup k = some b) : (k, b) ∈ l := by
  obtain ⟨l₁, l₂, rfl, -⟩ := List.lookup_eq_some_iff.mp h
  simp

theorem jsStartsWith_append_self (p s : String) : jsStartsWith (p ++ s) p = true := by
  unfold jsStartsWith
  rw [String.data_append, List.isPrefixOf_iff_prefix]
  exact List.prefix_append _ _

theorem module_key_not_case (s : String) :
    jsStartsWith ("module-" ++ s) "case-" = false := by
  unfold jsStartsWith
  rw [String.data_append]
  have h1 : ("case-" : String).data = ['c', 'a', 's', 'e', '-'] := rfl
  have h2 : ("module-" : String).data = ['m', 'o', 'd', 'u', 'l', 'e', '-'] := rfl
  rw [h1, h2]
  simp [List.isPrefixOf]

theorem root_key_not_case : jsStartsWith "root-all" "case-" = false := by
  decide

theorem case_key_inj {s t : String} :
    ("case-" ++ s = "case-" ++ t) ↔ s = t := by
  constructor
  · intro h
    have := congrArg String.data h
    rw [String.data_append, String.data_append] at this
    exact String.ext (List.append_cancel_left this)
  · intro h; rw [h]

theorem module_key_inj {s t : String} :
    ("module-" ++ s = "module-" ++ t) ↔ s = t := by
  constructor
  · intro h
    have := congrArg String.data h
    rw [String.data_append, String.data_append] at this
    exact String.ext (List.append_cancel_left this)
  · intro h; rw [h]

theorem case_key_ne_module (s t : String) : "case-" ++ s ≠ "module-" ++ t := by
  intro h
  have := congrArg String.data h
  rw [String.data_append, String.data_append] at this
  have h1 : ("case-" : String).data = ['c', 'a', 's', 'e', '-'] := rfl
  have h2 : ("module-" : String).data = ['m', 'o', 'd', 'u', 'l', 'e', '-'] := rfl
  rw [h1, h2] at this
  simp at this

theorem case_key_ne_root (s : String) : "case-" ++ s ≠ "root-all" := by
  intro h
  have := congrArg String.data h
  rw [String.data_append] at this
  have h1 : ("case-" : String).data = ['c', 'a', 's', 'e', '-'] := rfl
  have h2 : ("root-all" : String).data = ['r', 'o', 'o', 't', '-', 'a', 'l', 'l'] := rfl
  rw [h1, h2] at this
  simp at this

theorem module_key_ne_root (s : String) : "module-" ++ s ≠ "root-all" := by
  intro h
  have := congrArg String.data h
  rw [String.data_append] at this
  have h1 : ("module-" : String).data = ['m', 'o', 'd', 'u', 'l', 'e', '-'] := rfl
  have h2 : ("root-all" : String).data = ['r', 'o', 'o', 't', '-', 'a', 'l', 'l'] := rfl
  rw [h1, h2] at this
  simp at this

theorem filterMap_if_eq_map_filter {α β : Type} (p : α → Bool) (g : α → β) :
    ∀ l : List α,
      l.filterMap (fun a => if p a then some (g a) else none) = (l.filter p).map g := by
  intro l
  induction l with
  | nil => rfl
  | cons a t ih => by_cases h : p a <;> simp [h, ih]

theorem flatMap_congr {α β : Type} {f g : α → List β} :
    ∀ {l : List α}, (∀ a ∈ l, f a = g a) → l.flatMap f = l.flatMap g := by
  intro l
  induction l with
  | nil => intro _; rfl
  | cons a t ih =>
    intro h
    simp only [List.flatMap_cons]
    rw [h a (List.mem_cons_self a t), ih fun x hx => h x (List.mem_cons_of_mem a hx)]

theorem flatMap_map_list {α β γ : Type} (f : α → β) (g : β → List γ) (l : List α) :
    (l.map f).flatMap g = l.flatMap (g ∘ f) := by
  induction l with
  | nil => rfl
  | cons a t ih => simp only [List.map_cons, List.flatMap_cons, ih]; rfl

theorem flatMap_filter_eq {α β : Type} (q : α → Bool) (F : α → List β) (l : List α) :
    (l.filter q).flatMap F = l.flatMap (fun a => if q a then F a else []) := by
  induction l with
  | nil => rfl
  | cons a t ih => by_cases h : q a <;> simp [h, ih]

theorem flatMap_sublist {α β : Type} {f g : α → List β} :
    ∀ l : List α, (∀ a ∈ l, List.Sublist (f a) (g a)) →
      List.Sublist (l.flatMap f) (l.flatMap g) := by
  intro l
  induction l with
  | nil => intro _; exact List.Sublist.refl _
  | cons a t ih =>
    intro h
    simp only [List.flatMap_cons]
    exact List.Sublist.append (h a (List.mem_cons_self a t))
      (ih fun x hx => h x (List.mem_cons_of_mem a hx))

theorem flatMap_single {α β : Type} [DecidableEq α] {l : List α} {m : α}
    (hl : l.Nodup) (hm : m ∈ l) (F : α → List β) :
    l.flatMap (fun a => if a = m then F a else []) = F m := by
  induction l with
  | nil => cases hm
  | cons a t ih =>
    simp only [List.flatMap_cons]
    rcases List.mem_cons.mp hm with rfl | hmt
    · rw [if_pos rfl]
      have htail : t.flatMap (fun x => if x = m then F x else [])
          = t.flatMap (fun _ => []) := by
        apply flatMap_congr
        intro x hx
        rw [if_neg]
        intro hxa
        exact (List.nodup_cons.mp hl).1 (hxa ▸ hx)
      rw [htail]
      simp
    · have hne : a ≠ m := by
        intro ham
        exact (List.nodup_cons.mp hl).1 (ham ▸ hmt)
      rw [if_neg hne, ih (List.nodup_cons.mp hl).2 hmt]
      simp

theorem buildTree_children (data : List ModuleInfo) :
    (buildTree data).children
      = (data.filter (fun x => x.test_cases.getD [] ≠ [])).map moduleNode := by
  unfold buildTree
  simp only
  rw [List.filter_map]
  congr 1
  apply List.filter_congr
  intro x _
  simp [moduleNode, Function.comp, List.length_pos]

theorem filterMap_dif_eq_map_filter {α β : Type} (p : α → Prop) [DecidablePred p]
    (g : α → β) :
    ∀ l : List α,
      l.filterMap (fun a => if p a then some (g a) else none)
        = (l.filter (fun a => p a)).map g := by
  intro l
  induction l with
  | nil => rfl
  | cons a t ih => by_cases h : p a <;> simp [h, ih]

theorem extract_module (S : List String) (m : ModuleInfo)
    (hm : m.test_cases.getD [] ≠ []) :
    extractCaseIds (checkedModuleLeaves "root-all" S (moduleNode m))
      = ((m.test_cases.getD []).filter (fun tc =>
          "root-all" ∈ S ∨ ("module-" ++ toString m.id) ∈ S
            ∨ ("case-" ++ toString tc.id) ∈ S)).map (fun tc => tc.id) := by
  unfold checkedModuleLeaves
  have hch : (moduleNode m).children = (m.test_cases.getD []).map caseNode := rfl
  rw [hch]
  have hne : ((m.test_cases.getD []).map caseNode).isEmpty = false := by
    simp [List.isEmpty_eq_false, hm]
  rw [hne, if_neg Bool.false_ne_true]
  rw [List.filterMap_map]
  have hfc : ((fun c : CaseNode =>
        if "root-all" ∈ S ∨ (moduleNode m).key ∈ S ∨ c.key ∈ S then
          some (⟨c.key, some c.id⟩ : CheckedNode) else none) ∘ caseNode)
      = fun tc : CaseInfo =>
          if "root-all" ∈ S ∨ ("module-" ++ toString m.id) ∈ S
              ∨ ("case-" ++ toString tc.id) ∈ S then
            some (⟨"case-" ++ toString tc.id, some tc.id⟩ : CheckedNode) else none := rfl
  rw [hfc, filterMap_dif_eq_map_filter]
  unfold extractCaseIds
  rw [List.filter_map, List.map_map]
  have hall : List.filter
        ((fun n : CheckedNode => jsStartsWith n.key "case-")
          ∘ fun tc : CaseInfo => (⟨"case-" ++ toString tc.id, some tc.id⟩ : CheckedNode))
        ((m.test_cases.getD []).filter (fun tc =>
          "root-all" ∈ S ∨ ("module-" ++ toString m.id) ∈ S
            ∨ ("case-" ++ toString tc.id) ∈ S))
      = (m.test_cases.getD []).filter (fun tc =>
          "root-all" ∈ S ∨ ("module-" ++ toString m.id) ∈ S
            ∨ ("case-" ++ toString tc.id) ∈ S) := by
    apply List.filter_eq_self.mpr
    intro a _
    exact jsStartsWith_append_self "case-" (toString a.id)
  rw [hall]
  congr 1

theorem extract_checked (data : List ModuleInfo) (S : List String) :
    extractCaseIds (checkedLeafNodes (buildTree data) S)
      = data.flatMap (fun m =>
          if m.test_cases.getD [] = [] then []
          else ((m.test_cases.getD []).filter (fun tc =>
            "root-all" ∈ S ∨ ("module-" ++ toString m.id) ∈ S
              ∨ ("case-" ++ toString tc.id) ∈ S)).map (fun tc => tc.id)) := by
  unfold checkedLeafNodes
  have hk : (buildTree data).key = "root-all" := rfl
  rw [buildTree_children, hk]
  by_cases hq : data.filter (fun x => x.test_cases.getD [] ≠ []) = []
  · rw [hq]
    simp only [List.map_nil, List.isEmpty_nil]
    rw [if_pos trivial]
    have hall : ∀ m ∈ data, m.test_cases.getD [] = [] := by
      intro m hmem
      by_contra hne2
      have hmf : m ∈ data.filter (fun x => x.test_cases.getD [] ≠ []) :=
        List.mem_filter.mpr ⟨hmem, by simpa using hne2⟩
      rw [hq] at hmf
      exact absurd hmf (List.not_mem_nil m)
    have hLHS : extractCaseIds
        (if ("root-all" : String) ∈ S then [(⟨"root-all", none⟩ : CheckedNode)] else [])
        = [] := by
      split_ifs <;> simp [extractCaseIds, root_key_not_case]
    rw [hLHS]
    have hrhs := flatMap_congr (l := data) (g := fun _ => ([] : List Nat))
      (f := fun m =>
        if m.test_cases.getD [] = [] then []
        else ((m.test_cases.getD []).filter (fun tc =>
          "root-all" ∈ S ∨ ("module-" ++ toString m.id) ∈ S
            ∨ ("case-" ++ toString tc.id) ∈ S)).map (fun tc => tc.id))
      (fun m hmem => by simp [hall m hmem])
    rw [hrhs]
    simp
  · have hne2 : ((data.filter (fun x => x.test_cases.getD [] ≠ [])).map
        moduleNode).isEmpty = false := by
      rw [List.isEmpty_eq_false]
      simp only [ne_eq, List.map_eq_nil_iff]
      exact hq
    rw [hne2, if_neg Bool.false_ne_true]
    rw [flatMap_map_list]
    unfold extractCaseIds
    rw [List.filter_flatMap, List.map_flatMap, flatMap_filter_eq]
    apply flatMap_congr
    intro m hmem
    by_cases hmc : m.test_cases.getD [] = []
    · simp [hmc]
    · rw [if_pos (by simpa using hmc), if_neg hmc]
      exact extract_module S m hmc

theorem bucket_sum_le (cases : List ArchivedTestCase) :
    cases.countP (fun c => c.execution_status = some "passed")
      + cases.countP (fun c => c.execution_status = some "failed")
      + cases.countP (fun c => c.execution_status = some "blocked")
      + cases.countP (fun c => c.execution_status = some "skipped")
      ≤ cases.length := by
  induction cases with
  | nil => simp
  | cons c t ih =>
    simp only [List.countP_cons, List.length_cons]
    by_cases h1 : c.execution_status = some "passed" <;>
      by_cases h2 : c.execution_status = some "failed" <;>
        by_cases h3 : c.execution_status = some "blocked" <;>
          by_cases h4 : c.execution_status = some "skipped" <;>
            simp_all <;> omega

/-! ## Claim theorems -/

/-- C1. For every archived case with `N ≥ 0` steps, `openRunDrawer`
(the model's `beginEdit`) produces a draft whose `step_results` map has
exactly `N` entries, keyed (without duplicates) by the string forms of
`1..N`; entry `i` equals the saved step result for key `i` when one
exists (well-formed saved results: a nonempty status) and
`{status: 'skipped', actual: ''}` otherwise; the overall draft status
seeds from the case's `execution_status` or `'skipped'` when unset, and
the comment from `execution_comment` or `''` when unset. -/
theorem claim_C1 (row : ArchivedTestCase)
    (hwf : ∀ p ∈ row.step_execution_results.getD [],
      (p : String × StepRes).2.status ≠ "") :
    (openRunDrawer row).step_results.length = (row.test_steps.getD []).length
  ∧ ((openRunDrawer row).step_results.map Prod.fst
      = (List.range (row.test_steps.getD []).length).map (fun i => toString (i + 1)))
  ∧ ((openRunDrawer row).step_results.map Prod.fst).Nodup
  ∧ (∀ i, i < (row.test_steps.getD []).length →
      (openRunDrawer row).step_results[i]? =
        some (toString (i + 1),
          match lookupSaved row.step_execution_results (toString (i + 1)) with
          | some r => r
          | none => { status := "skipped", actual := "" }))
  ∧ (row.execution_status = none → (openRunDrawer row).status = "skipped")
  ∧ (∀ s, row.execution_status = some s → s ≠ "" → (openRunDrawer row).status = s)
  ∧ (row.execution_comment = none → (openRunDrawer row).comment = "")
  ∧ (∀ s, row.execution_comment = some s → s ≠ "" → (openRunDrawer row).comment = s) := by
  have hinj : Function.Injective (fun i : Nat => toString (i + 1)) := by
    intro a b hab
    have := natToString_injective hab
    omega
  have hkeys : (openRunDrawer row).step_results.map Prod.fst
      = (List.range (row.test_steps.getD []).length).map (fun i => toString (i + 1)) := by
    cases h : row.test_steps with
    | none => simp [openRunDrawer, h]
    | some steps => simp [openRunDrawer, h, List.map_map, Function.comp]
  refine ⟨?_, hkeys, ?_, ?_, ?_, ?_, ?_, ?_⟩
  · cases h : row.test_steps <;> simp [openRunDrawer, h]
  · rw [hkeys]
    exact List.Nodup.map hinj (List.nodup_range _)
  · intro i hi
    cases h : row.test_steps with
    | none => rw [h] at hi; simp at hi
    | some steps =>
      rw [h] at hi
      simp only [Option.getD_some] at hi
      unfold openRunDrawer
      rw [h]
      simp only [List.getElem?_map, List.getElem?_range hi, Option.map_some']
      congr 2
      cases hl : lookupSaved row.step_execution_results (toString (i + 1)) with
      | none => simp [seedStep, jsOrS]
      | some r =>
        have hmem : (toString (i + 1), r) ∈ row.step_execution_results.getD [] := by
          unfold lookupSaved at hl
          exact mem_of_lookup_eq_some hl
        have hst := hwf _ hmem
        simp only at hst
        cases r with
        | mk st ac =>
          simp only at hst
          unfold seedStep jsOrS
          simp only [Option.map_some']
          rw [if_neg hst]
          by_cases hac : ac = "" <;> simp [hac]
  · intro h; simp [openRunDrawer, jsOrS, h]
  · intro s h hs; simp [openRunDrawer, jsOrS, h, hs]
  · intro h; simp [openRunDrawer, jsOrS, h]
  · intro s h hs; simp [openRunDrawer, jsOrS, h, hs]

/-- C2 (amended). For every list of archived cases, the derived
`stats` give `total` = length of the list; one count per bucket
passed/failed/blocked/skipped, equal to the number of cases whose
`execution_status` exactly equals that bucket (any other or unset
status falls in no bucket — the bucket counts sum to at most `total` —
but still counts toward `total`); and `passRate` equal to `toFixed(1)`
applied to the IEEE-754 double-precision evaluation of
`(passed / total) * 100` — which can differ from exact one-decimal
formatting in tie cases, see `claim_C2_counterexample` — or the
literal string `"0.0"` when `total == 0` (in particular, 6 passed out
of 10 still gives `"60.0"`). -/
theorem claim_C2 (cases : List ArchivedTestCase) :
    (stats cases).total = cases.length
  ∧ (stats cases).passed = cases.countP (fun c => c.execution_status = some "passed")
  ∧ (stats cases).failed = cases.countP (fun c => c.execution_status = some "failed")
  ∧ (stats cases).blocked = cases.countP (fun c => c.execution_status = some "blocked")
  ∧ (stats cases).skipped = cases.countP (fun c => c.execution_status = some "skipped")
  ∧ (stats cases).passed + (stats cases).failed + (stats cases).blocked
      + (stats cases).skipped ≤ (stats cases).total
  ∧ (cases.length = 0 → (stats cases).passRate = "0.0")
  ∧ (cases.length ≠ 0 →
      (stats cases).passRate
        = toFixed1
            (jsMul100 (jsDiv
              (cases.countP (fun c => c.execution_status = some "passed"))
              cases.length)).1
            (jsMul100 (jsDiv
              (cases.countP (fun c => c.execution_status = some "passed"))
              cases.length)).2)
  ∧ (cases.length = 10 →
      cases.countP (fun c => c.execution_status = some "passed") = 6 →
      (stats cases).passRate = "60.0") := by
  refine ⟨rfl, ?_, ?_, ?_, ?_, ?_, ?_, ?_, ?_⟩
  · simp [stats, List.countP_eq_length_filter]
  · simp [stats, List.countP_eq_length_filter]
  · simp [stats, List.countP_eq_length_filter]
  · simp [stats, List.countP_eq_length_filter]
  · have h := bucket_sum_le cases
    rw [List.countP_eq_length_filter, List.countP_eq_length_filter,
      List.countP_eq_length_filter, List.countP_eq_length_filter] at h
    simpa [stats] using h
  · intro h
    simp [stats, h]
  · intro h
    simp [stats, List.countP_eq_length_filter, Nat.pos_of_ne_zero h]
  · intro h10 h6
    rw [List.countP_eq_length_filter] at h6
    simp only [stats, h6, h10]
    decide

/-- C2, claim as frozen, refuted: the pass rate is not always
`passed/total*100` formatted to one decimal place. At 23 passed of 80
the exact value 28.75 formats to `"28.8"`, but the program — computing
`(passed / total) * 100` in IEEE-754 doubles, where `23 / 80` rounds
below `0.2875` — renders `"28.7"`. (Likewise 3 of 2000 renders
`"0.1"`, not `"0.2"`.) -/
theorem claim_C2_counterexample :
    (stats (List.replicate 23 ⟨1, none, some "passed", none, none⟩
        ++ List.replicate 57 ⟨2, none, some "failed", none, none⟩)).passRate
      = "28.7"
  ∧ toFixed1 (23 * 100) 80 = "28.8"
  ∧ (stats (List.replicate 23 ⟨1, none, some "passed", none, none⟩
        ++ List.replicate 57 ⟨2, none, some "failed", none, none⟩)).passRate
      ≠ toFixed1 (23 * 100) 80 :=
  ⟨by decide, by decide, by decide⟩

/-- C3. Commit/apply round-trip: for every case list, every case whose
id is found in it and every draft, if the server echoes back the
committed payload unchanged, then the list update inside
`saveExecution` puts at the found index a record whose execution
fields — overall status, comment, and the full step_results map — are
exactly what was sent. -/
theorem claim_C3 (cases : List ArchivedTestCase) (c : ArchivedTestCase) (d : Draft)
    (i : Nat) (h : cases.findIdx? (fun x => x.id == c.id) = some i) :
    (applyServerResult cases (echoServer c (commit d)))[i]?
      = some (echoServer c (commit d))
  ∧ (echoServer c (commit d)).execution_status = some d.status
  ∧ (echoServer c (commit d)).execution_comment = some d.comment
  ∧ (echoServer c (commit d)).step_execution_results = some d.step_results := by
  refine ⟨?_, rfl, rfl, rfl⟩
  obtain ⟨hlt, -, -⟩ := List.findIdx?_eq_some_iff_getElem.mp h
  unfold applyServerResult
  have hid : (echoServer c (commit d)).id = c.id := rfl
  rw [hid, h]
  exact List.getElem?_set_self hlt

/-- C4. Archive creation is rejected locally, with no network call
issued, whenever the name is the empty string or the set of selected
case identifiers is empty; when the name is non-empty and at least one
case is selected, the create request is sent with exactly that name,
description, and selected case ids. -/
theorem claim_C4 (projectId : Nat) (name description : String)
    (checkedNodes : List CheckedNode) :
    (name = "" →
      handleCreate projectId name description checkedNodes
        = CreateOutcome.rejectedEmptyName)
  ∧ (name ≠ "" → extractCaseIds checkedNodes = [] →
      handleCreate projectId name description checkedNodes
        = CreateOutcome.rejectedEmptySelection)
  ∧ (name ≠ "" → extractCaseIds checkedNodes ≠ [] →
      handleCreate projectId name description checkedNodes
        = CreateOutcome.request projectId name description
            (extractCaseIds checkedNodes)) := by
  refine ⟨?_, ?_, ?_⟩
  · intro h
    simp [handleCreate, h]
  · intro h1 h2
    simp [handleCreate, h1, h2]
  · intro h1 h2
    simp [handleCreate, h1, h2]

/-- C7. Export filename: for every archive name and format tag, the
downloaded file is named `<archive-name>_导出.<ext>` where ext is
`xmind` when the format is `xmind`, `md` when the format is
`markdown`, and `csv` for any other format value. -/
theorem claim_C7 (name format : String) :
    exportFilename name "xmind" = name ++ "_导出." ++ "xmind"
  ∧ exportFilename name "markdown" = name ++ "_导出." ++ "md"
  ∧ (format ≠ "xmind" → format ≠ "markdown" →
      exportFilename name format = name ++ "_导出." ++ "csv") := by
  refine ⟨rfl, ?_, ?_⟩
  · simp [exportFilename, exportExt]
  · intro h1 h2
    simp [exportFilename, exportExt, h1, h2]

/-- C9. Overall status independence (frame): mutating any per-step
status or actual text in a draft leaves the draft's overall status and
comment unchanged — the overall status is never auto-derived from step
statuses — and commit sends exactly the user-set overall status and
comment alongside the step results, so `failed` overall with all steps
`passed` is representable and preserved. -/
theorem claim_C9 (d : Draft) (stepNum status actual comment : String) :
    (setStepStatus d stepNum status).status = d.status
  ∧ (setStepStatus d stepNum status).comment = d.comment
  ∧ (setStepActual d stepNum actual).status = d.status
  ∧ (setStepActual d stepNum actual).comment = d.comment
  ∧ (setOverallComment d comment).step_results = d.step_results
  ∧ commit d
      = { status := d.status, comment := d.comment, step_results := d.step_results }
  ∧ (commit (setOverallStatus d "failed")).status = "failed"
  ∧ (commit (setOverallStatus d "failed")).step_results = d.step_results := by
  exact ⟨rfl, rfl, rfl, rfl, rfl, rfl, rfl, rfl⟩

/-- C8. Transport 401 handling: the bearer token from persisted
storage is attached to every request on which it is present, and every
401 response to a non-login endpoint removes both stored tokens
(`access_token` and `refresh_token`) and forces a full navigation to
the login route; every other status (and the login 401) leaves the
storage intact and navigates nowhere, so this is the only error class
with such a non-local side effect. -/
theorem claim_C8 (storage : TokenStorage) (status : Nat) (url : Option String)
    (data : HttpErrorData) (t : String) :
    (storage.access_token = some t → t ≠ "" →
      requestAuthHeader storage = some ("Bearer " ++ t))
  ∧ (storage.access_token = none → requestAuthHeader storage = none)
  ∧ (status = 401 → (∀ u, url = some u → jsIncludes u "/auth/login" = false) →
      (respondWithError storage status url data).storage = ⟨none, none⟩
      ∧ (respondWithError storage status url data).location = some "/login")
  ∧ (status ≠ 401 →
      (respondWithError storage status url data).storage = storage
      ∧ (respondWithError storage status url data).location = none)
  ∧ (∀ u, url = some u → jsIncludes u "/auth/login" = true →
      (respondWithError storage status url data).storage = storage
      ∧ (respondWithError storage status url data).location = none) := by
  refine ⟨?_, ?_, ?_, ?_, ?_⟩
  · intro h ht
    simp [requestAuthHeader, h, ht]
  · intro h
    simp [requestAuthHeader, h]
  · intro h hurl
    subst h
    unfold respondWithError
    rw [if_pos rfl]
    cases url with
    | none => exact ⟨rfl, rfl⟩
    | some u =>
      have hu := hurl u rfl
      simp [hu]
  · intro h
    unfold respondWithError
    rw [if_neg h]
    split_ifs <;> exact ⟨rfl, rfl⟩
  · intro u hu hlogin
    subst hu
    by_cases h : status = 401
    · subst h
      unfold respondWithError
      rw [if_pos rfl]
      simp [hlogin]
    · unfold respondWithError
      rw [if_neg h]
      split_ifs <;> exact ⟨rfl, rfl⟩

/-- C10. A 401 response to a request whose URL contains `/auth/login`
triggers none of the expiry side effects — stored tokens remain intact
and no navigation occurs — and its error message is the
backend-supplied `detail`/`message`, defaulting to `用户名或密码错误`
when the backend supplies none. -/
theorem claim_C10 (storage : TokenStorage) (u : String) (data : HttpErrorData)
    (hlogin : jsIncludes u "/auth/login" = true) :
    (respondWithError storage 401 (some u) data).storage = storage
  ∧ (respondWithError storage 401 (some u) data).location = none
  ∧ (∀ d, data.detail = some d → d ≠ "" →
      (respondWithError storage 401 (some u) data).errorMessage = d)
  ∧ ((data.detail = none ∨ data.detail = some "") →
      ∀ m, data.message = some m → m ≠ "" →
      (respondWithError storage 401 (some u) data).errorMessage = m)
  ∧ ((data.detail = none ∨ data.detail = some "") →
      (data.message = none ∨ data.message = some "") →
      (respondWithError storage 401 (some u) data).errorMessage
        = "用户名或密码错误") := by
  have hbranch : respondWithError storage 401 (some u) data =
      { storage := storage, location := none
      , errorMessage :=
          if jsOrS data.detail (jsOrS data.message "") = ""
          then "用户名或密码错误" else jsOrS data.detail (jsOrS data.message "") } := by
    unfold respondWithError
    rw [if_pos rfl]
    simp [hlogin]
  rw [hbranch]
  refine ⟨rfl, rfl, ?_, ?_, ?_⟩
  · intro d hd hne
    simp [jsOrS, hd, hne]
  · intro hd m hm hne
    rcases hd with hd | hd <;> simp [jsOrS, hd, hm, hne]
  · intro hd hm
    rcases hd with hd | hd <;> rcases hm with hm | hm <;> simp [jsOrS, hd, hm]

/-- C6. Tree build: for every hierarchical module-to-case listing, the
built tree is a single root select-all node whose children are exactly
the modules that have at least one case (a module with zero cases
never appears), each appearing exactly once (given the listing's
module ids are distinct) with all of its cases as leaf children
carrying the case id. -/
theorem claim_C6 (data : List ModuleInfo) (m : ModuleInfo) :
    (buildTree data).key = "root-all"
  ∧ (buildTree data).children
      = (data.filter (fun x => x.test_cases.getD [] ≠ [])).map moduleNode
  ∧ (m.test_cases.getD [] = [] → moduleNode m ∉ (buildTree data).children)
  ∧ ((data.map (fun x => x.id)).Nodup → m ∈ data → m.test_cases.getD [] ≠ [] →
      (buildTree data).children.count (moduleNode m) = 1)
  ∧ (moduleNode m).children = (m.test_cases.getD []).map caseNode
  ∧ (∀ tc : CaseInfo, (caseNode tc).id = tc.id) := by
  refine ⟨rfl, buildTree_children data, ?_, ?_, rfl, fun tc => rfl⟩
  · intro hempty hmem
    rw [buildTree_children] at hmem
    obtain ⟨x, hx, heq⟩ := List.mem_map.mp hmem
    have h2 := (List.mem_filter.mp hx).2
    simp only [ne_eq, decide_not, Bool.not_eq_true', decide_eq_false_iff_not] at h2
    have h3 : (moduleNode x).children = (moduleNode m).children := by rw [heq]
    simp only [moduleNode, hempty, List.map_nil] at h3
    rw [List.map_eq_nil_iff] at h3
    exact h2 h3
  · intro hnodup hm hne
    have hdata : data.Nodup := List.Nodup.of_map _ hnodup
    have hinj := List.inj_on_of_nodup_map hnodup
    have h1 : (buildTree data).children.count (moduleNode m)
        = List.countP (fun a =>
            (moduleNode a == moduleNode m) && decide (a.test_cases.getD [] ≠ [])) data := by
      rw [buildTree_children, List.count_eq_countP, List.countP_map, List.countP_filter]
      rfl
    have hcongr : ∀ x ∈ data,
        ((moduleNode x == moduleNode m) && decide (x.test_cases.getD [] ≠ [])) = true
          ↔ (x == m) = true := by
      intro x hx
      simp only [Bool.and_eq_true, beq_iff_eq, decide_eq_true_eq]
      constructor
      · rintro ⟨hmn, -⟩
        have hkey : "module-" ++ toString x.id = "module-" ++ toString m.id :=
          congrArg ModuleNode.key hmn
        have hid : x.id = m.id := natToString_injective (module_key_inj.mp hkey)
        exact hinj hx hm hid
      · rintro rfl
        exact ⟨rfl, hne⟩
    rw [h1, List.countP_congr hcongr, ← List.count_eq_countP]
    exact List.count_eq_one_of_mem hdata hm

/-- C5. Selection extraction: from a set of checked tree nodes at any
granularity, exactly the nodes tagged as case leaves are kept and
mapped to their underlying case identifiers, with no duplicates (given
globally distinct case ids): checking the root node yields all case
identifiers across all modules, checking one module node yields
exactly that module's case identifiers (given distinct module ids),
and checking a single case leaf yields exactly that one identifier. -/
theorem claim_C5 (data : List ModuleInfo) (m : ModuleInfo) (tc : CaseInfo) :
    (extractCaseIds (checkedLeafNodes (buildTree data) ["root-all"])
        = data.flatMap (fun x => (x.test_cases.getD []).map (fun c => c.id)))
  ∧ ((data.map (fun x => x.id)).Nodup → m ∈ data →
      extractCaseIds (checkedLeafNodes (buildTree data)
          ["module-" ++ toString m.id])
        = (m.test_cases.getD []).map (fun c => c.id))
  ∧ ((data.flatMap (fun x => (x.test_cases.getD []).map (fun c => c.id))).Nodup →
      m ∈ data → tc ∈ m.test_cases.getD [] →
      extractCaseIds (checkedLeafNodes (buildTree data)
          ["case-" ++ toString tc.id])
        = [tc.id])
  ∧ (∀ S : List String,
      (data.flatMap (fun x => (x.test_cases.getD []).map (fun c => c.id))).Nodup →
      (extractCaseIds (checkedLeafNodes (buildTree data) S)).Nodup) := by
  refine ⟨?_, ?_, ?_, ?_⟩
  · rw [extract_checked]
    apply flatMap_congr
    intro x _
    by_cases hc : x.test_cases.getD [] = []
    · simp [hc]
    · rw [if_neg hc]
      have hfe : List.filter (fun tc2 =>
          ("root-all" : String) ∈ ["root-all"]
            ∨ ("module-" ++ toString x.id) ∈ ["root-all"]
            ∨ ("case-" ++ toString tc2.id) ∈ ["root-all"])
          (x.test_cases.getD []) = x.test_cases.getD [] := by
        apply List.filter_eq_self.mpr
        intro a _
        simp
      rw [hfe]
  · intro hnodup hm
    rw [extract_checked]
    have hdata : data.Nodup := List.Nodup.of_map _ hnodup
    have hinj := List.inj_on_of_nodup_map hnodup
    have hcongr : ∀ x ∈ data,
        (if x.test_cases.getD [] = [] then []
         else ((x.test_cases.getD []).filter (fun tc2 =>
           ("root-all" : String) ∈ ["module-" ++ toString m.id]
             ∨ ("module-" ++ toString x.id) ∈ ["module-" ++ toString m.id]
             ∨ ("case-" ++ toString tc2.id) ∈ ["module-" ++ toString m.id])).map
           (fun tc2 => tc2.id))
        = (if x = m then (x.test_cases.getD []).map (fun c => c.id) else []) := by
      intro x hx
      by_cases hxm : x = m
      · subst hxm
        rw [if_pos rfl]
        by_cases hc : x.test_cases.getD [] = []
        · simp [hc]
        · rw [if_neg hc]
          congr 1
          apply List.filter_eq_self.mpr
          intro a _
          simp
      · have hid : x.id ≠ m.id := fun h => hxm (hinj hx hm h)
        rw [if_neg hxm]
        by_cases hc : x.test_cases.getD [] = []
        · simp [hc]
        · rw [if_neg hc]
          have hfe : List.filter (fun tc2 =>
              ("root-all" : String) ∈ ["module-" ++ toString m.id]
                ∨ ("module-" ++ toString x.id) ∈ ["module-" ++ toString m.id]
                ∨ ("case-" ++ toString tc2.id) ∈ ["module-" ++ toString m.id])
              (x.test_cases.getD []) = [] := by
            apply List.filter_eq_nil_iff.mpr
            intro a _
            intro hcond
            rw [decide_eq_true_eq] at hcond
            rcases hcond with h | h | h
            · exact Ne.symm (module_key_ne_root _) (List.mem_singleton.mp h)
            · exact hid (natToString_injective
                (module_key_inj.mp (List.mem_singleton.mp h)))
            · exact case_key_ne_module _ _ (List.mem_singleton.mp h)
          rw [hfe]
          rfl
    have hc2 := flatMap_congr (l := data) hcongr
    rw [hc2]
    exact flatMap_single hdata hm _
  · intro hids hm htc
    rw [extract_checked]
    have hbr : ∀ x ∈ data,
        (if x.test_cases.getD [] = [] then []
         else ((x.test_cases.getD []).filter (fun tc2 =>
           ("root-all" : String) ∈ ["case-" ++ toString tc.id]
             ∨ ("module-" ++ toString x.id) ∈ ["case-" ++ toString tc.id]
             ∨ ("case-" ++ toString tc2.id) ∈ ["case-" ++ toString tc.id])).map
           (fun tc2 => tc2.id))
        = ((x.test_cases.getD []).map (fun c => c.id)).filter
            (fun i => i = tc.id) := by
      intro x _
      by_cases hc : x.test_cases.getD [] = []
      · simp [hc]
      · rw [if_neg hc, List.filter_map]
        congr 1
        apply List.filter_congr
        intro a _
        show _ = decide (a.id = tc.id)
        rw [decide_eq_decide]
        constructor
        · rintro (h | h | h)
          · exact absurd (List.mem_singleton.mp h)
              (Ne.symm (case_key_ne_root _))
          · exact absurd (List.mem_singleton.mp h).symm (case_key_ne_module _ _)
          · exact natToString_injective
              (case_key_inj.mp (List.mem_singleton.mp h))
        · intro h
          exact Or.inr (Or.inr (List.mem_singleton.mpr (by rw [h])))
    have hc2 := flatMap_congr (l := data) hbr
    rw [hc2, ← List.filter_flatMap]
    have hmemid : tc.id ∈ data.flatMap
        (fun x => (x.test_cases.getD []).map (fun c => c.id)) :=
      List.mem_flatMap.mpr ⟨m, hm, List.mem_map.mpr ⟨tc, htc, rfl⟩⟩
    rw [List.filter_eq, List.count_eq_one_of_mem hids hmemid]
    rfl
  · intro S hids
    rw [extract_checked]
    refine List.Nodup.sublist ?_ hids
    apply flatMap_sublist
    intro x _
    by_cases hc : x.test_cases.getD [] = []
    · simp [hc]
    · rw [if_neg hc]
      exact List.Sublist.map _ (List.filter_sublist _)

/-! ## Witnesses: the claim theorems applied at concrete inputs -/

/-- Witness for C1 at a two-step case with one saved step result. -/
theorem claim_C1_witness :
    (openRunDrawer ⟨1, some [⟨"a", "b"⟩, ⟨"c", "d"⟩], some "failed", some "note",
        some [("1", ⟨"passed", "ok"⟩)]⟩).step_results.length
      = ((some [(⟨"a", "b"⟩ : TestStep), ⟨"c", "d"⟩] : Option (List TestStep)).getD
          []).length :=
  (claim_C1 ⟨1, some [⟨"a", "b"⟩, ⟨"c", "d"⟩], some "failed", some "note",
      some [("1", ⟨"passed", "ok"⟩)]⟩ (by decide)).1

/-- Witness for C2 on ten cases of which six passed. -/
theorem claim_C2_witness :
    (stats (List.replicate 6 ⟨1, none, some "passed", none, none⟩
        ++ List.replicate 4 ⟨2, none, some "failed", none, none⟩)).passRate
      = "60.0" :=
  (claim_C2 (List.replicate 6 ⟨1, none, some "passed", none, none⟩
      ++ List.replicate 4 ⟨2, none, some "failed", none, none⟩)).2.2.2.2.2.2.2.2
    (by decide) (by decide)

/-- Witness for C3 on a one-element case list. -/
theorem claim_C3_witness :
    (applyServerResult [⟨1, none, none, none, none⟩]
        (echoServer ⟨1, none, none, none, none⟩
          (commit ⟨"passed", "ok", [("1", ⟨"passed", ""⟩)]⟩)))[0]?
      = some (echoServer ⟨1, none, none, none, none⟩
          (commit ⟨"passed", "ok", [("1", ⟨"passed", ""⟩)]⟩)) :=
  (claim_C3 [⟨1, none, none, none, none⟩] ⟨1, none, none, none, none⟩
    ⟨"passed", "ok", [("1", ⟨"passed", ""⟩)]⟩ 0 (by decide)).1

/-- Witness for C4: a valid form issues the create request. -/
theorem claim_C4_witness :
    handleCreate 7 "v1" "desc" [⟨"case-3", some 3⟩]
      = CreateOutcome.request 7 "v1" "desc"
          (extractCaseIds [⟨"case-3", some 3⟩]) :=
  (claim_C4 7 "v1" "desc" [⟨"case-3", some 3⟩]).2.2 (by decide) (by decide)

/-- Witness for C5: checking a single case leaf on a three-module
listing extracts exactly that case id. -/
theorem claim_C5_witness :
    extractCaseIds (checkedLeafNodes
        (buildTree [⟨1, "M1", some [⟨10, "a"⟩, ⟨11, "b"⟩]⟩, ⟨2, "M2", some []⟩,
          ⟨3, "M3", some [⟨12, "c"⟩]⟩])
        ["case-" ++ toString (10 : Nat)])
      = [10] :=
  (claim_C5 [⟨1, "M1", some [⟨10, "a"⟩, ⟨11, "b"⟩]⟩, ⟨2, "M2", some []⟩,
      ⟨3, "M3", some [⟨12, "c"⟩]⟩] ⟨1, "M1", some [⟨10, "a"⟩, ⟨11, "b"⟩]⟩
    ⟨10, "a"⟩).2.2.1 (by decide) (by decide) (by decide)

/-- Witness for C6: a module with cases appears exactly once among the
root's children. -/
theorem claim_C6_witness :
    (buildTree [⟨1, "M1", some [⟨10, "a"⟩]⟩, ⟨2, "M2", none⟩]).children.count
        (moduleNode ⟨1, "M1", some [⟨10, "a"⟩]⟩)
      = 1 :=
  (claim_C6 [⟨1, "M1", some [⟨10, "a"⟩]⟩, ⟨2, "M2", none⟩]
    ⟨1, "M1", some [⟨10, "a"⟩]⟩).2.2.2.1 (by decide) (by decide) (by decide)

/-- Witness for C7: an unrecognized format falls back to `csv`. -/
theorem claim_C7_witness :
    exportFilename "归档A" "pdf" = "归档A" ++ "_导出." ++ "csv" :=
  (claim_C7 "归档A" "pdf").2.2 (by decide) (by decide)

/-- Witness for C8: a non-login 401 clears both tokens and navigates
to the login route. -/
theorem claim_C8_witness :
    (respondWithError ⟨some "tok", some "ref"⟩ 401 (some "/api/projects/1")
        ⟨none, none⟩).storage = ⟨none, none⟩
  ∧ (respondWithError ⟨some "tok", some "ref"⟩ 401 (some "/api/projects/1")
        ⟨none, none⟩).location = some "/login" :=
  (claim_C8 ⟨some "tok", some "ref"⟩ 401 (some "/api/projects/1") ⟨none, none⟩
    "tok").2.2.1 rfl (fun u hu => by injection hu with h2; rw [← h2]; decide)

/-- Witness for C10: a login 401 with no backend detail or message
yields the default credential-error message. -/
theorem claim_C10_witness :
    (respondWithError ⟨some "t", none⟩ 401 (some "/auth/login")
        ⟨none, none⟩).errorMessage = "用户名或密码错误" :=
  (claim_C10 ⟨some "t", none⟩ "/auth/login" ⟨none, none⟩ (by decide)).2.2.2.2
    (Or.inl rfl) (Or.inl rfl)

end Testflow
